import Mathlib

/-!
# Verification of the omniscan reconciliation engine

Shallow embedding of the core of `omniscan_pkg` (scanner.py, models.py,
notifications.py) together with theorems settling the frozen claims about it.

Conventions of the embedding:
* Python strings are `String`, Python ints are `Nat`/`Int`, Python `None`
  appears as `Option.none`.
* Fallible operations (`os.path.getsize`, file reads, attribute access on a
  possibly-`None` object) are `Except`-valued.
* Stateful objects (the stuck-file database, the pending-scan dict, the
  dispatch pool) are explicit state values threaded through step functions.
* Wall-clock instants are `Nat` (seconds); traces of timed events are lists
  and carry their own monotonicity hypothesis.
-/

namespace Omniscan

/-! ## POSIX path helpers (`os.path` as used by the scanner)

The scanner runs on POSIX paths; `os.path.normpath`, `os.path.dirname`,
`os.path.basename` and `os.path.splitext` are the posixpath algorithms. -/

/-- posixpath's final `return path or '.'`. -/
def orDot (s : String) : String := if s = "" then "." else s

theorem orDot_ne_empty (s : String) : orDot s ≠ "" := by
  unfold orDot; split <;> simp_all

/-- Python `str.split(sep)` for a one-character separator (empty pieces are
kept, as Python does). -/
def chSplit (sep : Char) : List Char → List String
  | [] => [""]
  | c :: tl =>
    match chSplit sep tl, decide (c = sep) with
    | r, true => "" :: r
    | [], false => [String.mk [c]]
    | h :: t, false => (String.mk [c] ++ h) :: t

/-- Python `'/'.join(...)`. -/
def joinSlash : List String → String
  | [] => ""
  | [x] => x
  | x :: tl => x ++ "/" ++ joinSlash tl

/-- Python `s.startswith(pre)` on strings. -/
def strStartsWith (s pre : String) : Bool := pre.toList.isPrefixOf s.toList

/-- `os.path.normpath` (posixpath): collapse `//`, `.` and `..` components.
A leading `//` (but not `///`) is preserved, per POSIX. -/
def normpath (p : String) : String :=
  if p = "" then "." else
  let cs := p.toList
  let slashes : Nat :=
    match cs with
    | '/' :: '/' :: '/' :: _ => 1
    | '/' :: '/' :: _ => 2
    | '/' :: _ => 1
    | _ => 0
  let comps := (chSplit '/' cs).filter (fun c => c ≠ "" ∧ c ≠ ".")
  let newComps := comps.foldl
    (fun acc comp =>
      if comp ≠ ".." ∨ (slashes = 0 ∧ acc = []) ∨ acc.getLast? = some ".."
      then acc ++ [comp]
      else acc.dropLast)
    []
  orDot (String.mk (List.replicate slashes '/') ++ joinSlash newComps)

theorem normpath_ne_empty (p : String) : normpath p ≠ "" := by
  unfold normpath
  split
  · decide
  · exact orDot_ne_empty _

theorem normpath_length_pos (p : String) : 0 < (normpath p).length := by
  have h := normpath_ne_empty p
  cases hp : normpath p with
  | mk cs =>
    cases cs with
    | nil => exact absurd hp (by simpa [String.ext_iff] using h)
    | cons c cs => simp [String.length]

/-- Index (from the left) of the last occurrence of `c` in `cs`, if any. -/
def lastIdxOf (c : Char) (cs : List Char) : Option Nat :=
  cs.foldl (fun (acc : Option Nat × Nat) ch =>
      (if ch = c then some acc.2 else acc.1, acc.2 + 1)) (none, 0) |>.1

/-- `os.path.dirname` (posixpath): everything up to the final `/`, with
trailing slashes stripped unless the head is all slashes. -/
def dirname (p : String) : String :=
  let cs := p.toList
  match lastIdxOf '/' cs with
  | none => ""
  | some i =>
    let head := cs.take (i + 1)
    if head.all (· = '/') then String.mk head
    else String.mk ((head.reverse.dropWhile (· = '/')).reverse)

/-- `os.path.basename` (posixpath): everything after the final `/`. -/
def basename (p : String) : String :=
  let cs := p.toList
  match lastIdxOf '/' cs with
  | none => p
  | some i => String.mk (cs.drop (i + 1))

/-- Extension part of `os.path.splitext` applied to a basename: the suffix
from the last dot, where leading dots of the name never begin an extension. -/
def splitextExt (name : String) : String :=
  let cs := name.toList
  let lead := (cs.takeWhile (· = '.')).length
  let rest := cs.drop lead
  match lastIdxOf '.' rest with
  | none => ""
  | some j => String.mk (rest.drop j)

/-- `os.path.splitext(os.path.basename(p))[1].lower()` as computed in
`scan_file` / the sweep loops. -/
def fileExtLower (p : String) : String :=
  String.mk ((splitextExt (basename p)).toList.map Char.toLower)

/-! ## Configuration snapshot

The fields of the `config` dict that the embedded code paths read.  Fields
accessed with `config.get(key, default)` where test configs may omit the key
are `Option`-valued and read through `getD`; fields the code indexes
directly are plain. -/

structure Config where
  /-- `config.get('SERVER_TYPE', 'plex')`. -/
  serverType : String := "plex"
  /-- `config['MEDIA_EXTENSIONS']`. -/
  mediaExtensions : List String := []
  /-- `config['SYMLINK_CHECK']`. -/
  symlinkCheck : Bool := false
  /-- `config.get('HEALTH_CHECK')`. -/
  healthCheck : Bool := false
  /-- `config.get('IGNORE_SAMPLES')`. -/
  ignoreSamples : Bool := false
  /-- `config['MIN_DURATION']` (seconds, compared against the probed duration). -/
  minDuration : ℚ := 180
  /-- `config['NOTIFICATIONS_ENABLED']`. -/
  notificationsEnabled : Bool := true
  /-- `config.get('DISCORD_WEBHOOK_URL')`. -/
  webhookUrl : Option String := none
  /-- `config.get('DRY_RUN')`. -/
  dryRun : Bool := false
  /-- `config.get('ABORT_ON_MASS_DELETION')`. -/
  abortOnMassDeletion : Bool := true
  /-- `config.get('DELETION_THRESHOLD', 50)` reads through the default. -/
  deletionThreshold : Option Nat := some 50
  /-- `config.get('SCAN_DEBOUNCE', 10)` reads through the default. -/
  scanDebounce : Option Nat := some 10
deriving DecidableEq

/-! ## StuckFileTracker (models.py)

The persistent store is modelled as an association list from path to the
`attempts` counter; `increment_attempt` and `clear_entry` are the two
mutations the claims mention.  `max_retries` is the constant 3 set in
`StuckFileTracker.__init__`. -/

abbrev TrackerDb := List (String × Nat)

/-- `StuckFileTracker.max_retries` (models.py line 16). -/
def maxRetries : Nat := 3

/-- Attempts recorded for `p` (the `SELECT attempts FROM stuck_files` query):
`none` when there is no row. -/
def lookupAttempts : TrackerDb → String → Option Nat
  | [], _ => none
  | e :: tl, p => if e.1 = p then some e.2 else lookupAttempts tl p

/-- The `UPDATE stuck_files SET attempts = ?` statement. -/
def setAttempts : TrackerDb → String → Nat → TrackerDb
  | [], _, _ => []
  | e :: tl, p, n =>
    (if e.1 = p then (e.1, n) else e) :: setAttempts tl p n

/-- `StuckFileTracker.increment_attempt`: sets the row to `old + 1` (or
inserts it with 1), and returns `true` iff the post-increment value exceeds
`max_retries`.  Returns the updated store alongside the "give up" flag. -/
def incrementAttempt (db : TrackerDb) (p : String) : Bool × TrackerDb :=
  match lookupAttempts db p with
  | some old => (decide (old + 1 > maxRetries), setAttempts db p (old + 1))
  | none => (decide ((1 : Nat) > maxRetries), db ++ [(p, 1)])

/-- `StuckFileTracker.clear_entry`: `DELETE FROM stuck_files WHERE path = ?`. -/
def clearEntry (db : TrackerDb) (p : String) : TrackerDb :=
  db.filter (fun e => ¬ (e.1 = p))

/-- Attempts as a count with 0 for "no row", used to state monotonicity. -/
def attemptsCount (db : TrackerDb) (p : String) : Nat :=
  (lookupAttempts db p).getD 0

theorem lookupAttempts_setAttempts_self (db : TrackerDb) (p : String) (n : Nat)
    (h : lookupAttempts db p ≠ none) :
    lookupAttempts (setAttempts db p n) p = some n := by
  induction db with
  | nil => simp [lookupAttempts] at h
  | cons e tl ih =>
    by_cases he : e.1 = p
    · simp [lookupAttempts, setAttempts, he]
    · simp only [lookupAttempts, setAttempts, if_neg he] at h ⊢
      exact ih h

theorem lookupAttempts_append_self (db : TrackerDb) (p : String) (n : Nat)
    (h : lookupAttempts db p = none) :
    lookupAttempts (db ++ [(p, n)]) p = some n := by
  induction db with
  | nil => simp [lookupAttempts]
  | cons e tl ih =>
    by_cases he : e.1 = p
    · simp [lookupAttempts, he] at h
    · simp only [lookupAttempts, if_neg he] at h
      simpa [lookupAttempts, if_neg he] using ih h

theorem lookupAttempts_incrementAttempt (db : TrackerDb) (p : String) :
    lookupAttempts (incrementAttempt db p).2 p = some (attemptsCount db p + 1) := by
  unfold incrementAttempt attemptsCount
  cases h : lookupAttempts db p with
  | none => simpa using lookupAttempts_append_self db p 1 h
  | some old =>
    simpa using lookupAttempts_setAttempts_self db p (old + 1) (by simp [h])

theorem lookupAttempts_clearEntry (db : TrackerDb) (p : String) :
    lookupAttempts (clearEntry db p) p = none := by
  induction db with
  | nil => simp [clearEntry, lookupAttempts]
  | cons e tl ih =>
    by_cases he : e.1 = p
    · simpa [clearEntry, he] using ih
    · simpa [clearEntry, lookupAttempts, he] using ih

theorem giveUp_incrementAttempt (db : TrackerDb) (p : String) :
    (incrementAttempt db p).1 = decide (attemptsCount db p + 1 > maxRetries) := by
  unfold incrementAttempt attemptsCount
  cases h : lookupAttempts db p <;> simp

/-! ## Library membership cache (scanner.py)

`library_sections_cache` entries carry id, title, type and the list of root
locations.  `get_library_id_for_path` does a longest-prefix scan over all
roots of all sections; `is_library_root` tests exact (normalized) equality
with some root of the section. -/

structure SectionInfo where
  id : String
  title : String
  stype : String
  locations : List String
deriving DecidableEq, Repr

abbrev LibTriple := String × String × String

def sectionTriple (sec : SectionInfo) : LibTriple := (sec.id, sec.title, sec.stype)

/-- Accumulator update for one `location_path` inside the loop of
`get_library_id_for_path`: on a `startswith` match that is strictly longer
than the best so far, replace `(best_match, best_match_length)`. -/
def resolveStep (np : String) (tr : LibTriple) (a : Option LibTriple × Nat)
    (loc : String) : Option LibTriple × Nat :=
  let nl := normpath loc
  if strStartsWith np nl ∧ nl.length > a.2 then (some tr, nl.length) else a

/-- The inner `for location_path in section['locations']` loop. -/
def resolveLocs (np : String) (tr : LibTriple) :
    List String → (Option LibTriple × Nat) → Option LibTriple × Nat
  | [], a => a
  | loc :: tl, a => resolveLocs np tr tl (resolveStep np tr a loc)

/-- The outer `for section in self.library_sections_cache` loop. -/
def resolveSecs (np : String) :
    List SectionInfo → (Option LibTriple × Nat) → Option LibTriple × Nat
  | [], a => a
  | sec :: tl, a =>
    resolveSecs np tl (resolveLocs np (sectionTriple sec) sec.locations a)

/-- `PlexScanner.get_library_id_for_path`: longest-prefix match of the
normalized path over all normalized section roots; `none` plays the role of
the `(None, None, None)` result. -/
def getLibraryIdForPath (cache : List SectionInfo) (p : String) : Option LibTriple :=
  (resolveSecs (normpath p) cache (none, 0)).1

/-- `str(x)` applied to a possibly-`None` library id, as in
`str(library_id)` inside `is_library_root`. -/
def pyStrOptId : Option String → String
  | none => "None"
  | some s => s

/-- `PlexScanner.is_library_root`: the folder equals (after normalization)
one of the root locations of the section with the given id. -/
def isLibraryRoot (cache : List SectionInfo) (libId : Option String)
    (folder : String) : Bool :=
  cache.any (fun sec =>
    (sec.id == pyStrOptId libId) &&
      sec.locations.any (fun loc => normpath folder == normpath loc))

/-- Length of the longest matching normalized root among `locs` (0 when no
root matches). -/
def maxMatchLenLocs (np : String) : List String → Nat
  | [] => 0
  | loc :: tl =>
    max (if strStartsWith np (normpath loc) then (normpath loc).length else 0)
      (maxMatchLenLocs np tl)

/-- Length of the longest matching normalized root over all sections. -/
def maxMatchLen (np : String) : List SectionInfo → Nat
  | [] => 0
  | sec :: tl => max (maxMatchLenLocs np sec.locations) (maxMatchLen np tl)

theorem maxMatchLenLocs_le {np loc : String} {locs : List String}
    (hmem : loc ∈ locs) (hsw : strStartsWith np (normpath loc)) :
    (normpath loc).length ≤ maxMatchLenLocs np locs := by
  induction locs with
  | nil => cases hmem
  | cons l tl ih =>
    rw [maxMatchLenLocs]
    rcases List.mem_cons.1 hmem with h | h
    · subst h
      rw [if_pos hsw]
      exact le_max_left _ _
    · exact le_trans (ih h) (le_max_right _ _)

theorem maxMatchLenLocs_eq_zero {np : String} {locs : List String}
    (h : ∀ loc ∈ locs, ¬ strStartsWith np (normpath loc)) :
    maxMatchLenLocs np locs = 0 := by
  induction locs with
  | nil => rfl
  | cons l tl ih =>
    rw [maxMatchLenLocs, if_neg (h l (List.mem_cons_self l tl)),
      ih (fun loc hm => h loc (List.mem_cons_of_mem l hm))]
    rfl

theorem maxMatchLenLocs_exists {np : String} {locs : List String}
    (h : 0 < maxMatchLenLocs np locs) :
    ∃ loc ∈ locs, strStartsWith np (normpath loc) ∧
      (normpath loc).length = maxMatchLenLocs np locs := by
  induction locs with
  | nil => simp [maxMatchLenLocs] at h
  | cons l tl ih =>
    rw [maxMatchLenLocs] at h ⊢
    rcases le_or_lt (maxMatchLenLocs np tl)
        (if strStartsWith np (normpath l) then (normpath l).length else 0) with hle | hlt
    · rw [max_eq_left hle] at h ⊢
      by_cases hsw : strStartsWith np (normpath l)
      · exact ⟨l, List.mem_cons_self l tl, hsw, by rw [if_pos hsw]⟩
      · rw [if_neg hsw] at h; omega
    · rw [max_eq_right hlt.le] at h ⊢
      obtain ⟨loc, hm, hsw, hlen⟩ := ih h
      exact ⟨loc, List.mem_cons_of_mem l hm, hsw, hlen⟩

theorem maxMatchLen_le {np loc : String} {sec : SectionInfo}
    {secs : List SectionInfo} (hsec : sec ∈ secs) (hmem : loc ∈ sec.locations)
    (hsw : strStartsWith np (normpath loc)) :
    (normpath loc).length ≤ maxMatchLen np secs := by
  induction secs with
  | nil => cases hsec
  | cons s tl ih =>
    rw [maxMatchLen]
    rcases List.mem_cons.1 hsec with h | h
    · subst h
      exact le_trans (maxMatchLenLocs_le hmem hsw) (le_max_left _ _)
    · exact le_trans (ih h) (le_max_right _ _)

theorem maxMatchLen_eq_zero {np : String} {secs : List SectionInfo}
    (h : ∀ sec ∈ secs, ∀ loc ∈ sec.locations, ¬ strStartsWith np (normpath loc)) :
    maxMatchLen np secs = 0 := by
  induction secs with
  | nil => rfl
  | cons s tl ih =>
    rw [maxMatchLen, maxMatchLenLocs_eq_zero (h s (List.mem_cons_self s tl)),
      ih (fun sec hm => h sec (List.mem_cons_of_mem s hm))]
    rfl

theorem resolveLocs_snd (np : String) (tr : LibTriple) (locs : List String)
    (a : Option LibTriple × Nat) :
    (resolveLocs np tr locs a).2 = max a.2 (maxMatchLenLocs np locs) := by
  induction locs generalizing a with
  | nil => simp [resolveLocs, maxMatchLenLocs]
  | cons l tl ih =>
    rw [resolveLocs, maxMatchLenLocs, ih]
    unfold resolveStep
    by_cases hsw : strStartsWith np (normpath l)
    · by_cases hlen : (normpath l).length > a.2
      · rw [if_pos ⟨hsw, hlen⟩, if_pos hsw]
        dsimp only
        omega
      · rw [if_neg (by tauto), if_pos hsw]
        omega
    · rw [if_neg (by tauto), if_neg hsw]
      omega

theorem resolveLocs_no_update {np : String} {tr : LibTriple}
    {locs : List String} {a : Option LibTriple × Nat}
    (h : maxMatchLenLocs np locs ≤ a.2) :
    resolveLocs np tr locs a = a := by
  induction locs with
  | nil => rfl
  | cons l tl ih =>
    rw [maxMatchLenLocs] at h
    have hstep : resolveStep np tr a l = a := by
      unfold resolveStep
      rw [if_neg]
      rintro ⟨hsw, hlen⟩
      rw [if_pos hsw] at h
      omega
    rw [resolveLocs, hstep]
    exact ih (le_trans (le_max_right _ _) h)

theorem resolveLocs_hit {np : String} {tr : LibTriple} {locs : List String}
    {a : Option LibTriple × Nat} (h : a.2 < maxMatchLenLocs np locs) :
    (resolveLocs np tr locs a).1 = some tr := by
  induction locs generalizing a with
  | nil => simp [maxMatchLenLocs] at h
  | cons l tl ih =>
    rw [maxMatchLenLocs] at h
    rw [resolveLocs]
    by_cases hsw : strStartsWith np (normpath l)
    · rw [if_pos hsw] at h
      by_cases hlen : (normpath l).length > a.2
      · have hstep : resolveStep np tr a l = (some tr, (normpath l).length) := by
          unfold resolveStep
          rw [if_pos ⟨hsw, hlen⟩]
        rw [hstep]
        rcases lt_or_le (normpath l).length (maxMatchLenLocs np tl) with h2 | h2
        · exact ih h2
        · rw [resolveLocs_no_update h2]
      · have hstep : resolveStep np tr a l = a := by
          unfold resolveStep
          rw [if_neg (by tauto)]
        rw [hstep]
        exact ih (by omega)
    · rw [if_neg hsw] at h
      have hstep : resolveStep np tr a l = a := by
        unfold resolveStep
        rw [if_neg (by tauto)]
      rw [hstep]
      exact ih (by omega)

theorem resolveSecs_snd (np : String) (secs : List SectionInfo)
    (a : Option LibTriple × Nat) :
    (resolveSecs np secs a).2 = max a.2 (maxMatchLen np secs) := by
  induction secs generalizing a with
  | nil => simp [resolveSecs, maxMatchLen]
  | cons s tl ih =>
    rw [resolveSecs, maxMatchLen, ih, resolveLocs_snd]
    omega

theorem resolveSecs_no_update {np : String} {secs : List SectionInfo}
    {a : Option LibTriple × Nat} (h : maxMatchLen np secs ≤ a.2) :
    resolveSecs np secs a = a := by
  induction secs with
  | nil => rfl
  | cons s tl ih =>
    rw [maxMatchLen] at h
    rw [resolveSecs, resolveLocs_no_update (le_trans (le_max_left _ _) h)]
    exact ih (le_trans (le_max_right _ _) h)

theorem resolveSecs_hit {np : String} {secs : List SectionInfo}
    {a : Option LibTriple × Nat} (h : a.2 < maxMatchLen np secs) :
    ∃ sec ∈ secs, (resolveSecs np secs a).1 = some (sectionTriple sec) ∧
      maxMatchLenLocs np sec.locations = max a.2 (maxMatchLen np secs) := by
  induction secs generalizing a with
  | nil => simp [maxMatchLen] at h
  | cons s tl ih =>
    rw [maxMatchLen] at h
    rw [resolveSecs]
    set a' := resolveLocs np (sectionTriple s) s.locations a with ha'
    have ha'2 : a'.2 = max a.2 (maxMatchLenLocs np s.locations) := by
      rw [ha']; exact resolveLocs_snd np _ _ a
    have hcons : maxMatchLen np (s :: tl)
        = max (maxMatchLenLocs np s.locations) (maxMatchLen np tl) := rfl
    rcases lt_or_le a'.2 (maxMatchLen np tl) with hlt | hge
    · obtain ⟨sec, hm, hres, hlen⟩ := ih hlt
      refine ⟨sec, List.mem_cons_of_mem s hm, hres, ?_⟩
      rw [hlen, ha'2, hcons]
      omega
    · rw [resolveSecs_no_update hge]
      have hms : a.2 < maxMatchLenLocs np s.locations := by
        rw [ha'2] at hge
        omega
      refine ⟨s, List.mem_cons_self s tl, resolveLocs_hit hms, ?_⟩
      rw [ha'2] at hge
      rw [hcons]
      omega

theorem getLibraryIdForPath_eq_resolve (cache : List SectionInfo) (p : String) :
    getLibraryIdForPath cache p = (resolveSecs (normpath p) cache (none, 0)).1 := rfl

/-- C6: `Resolve` (`get_library_id_for_path`) returns a section's
`(id, title, type)` triple exactly when the normalized path has one of that
section's normalized roots as a string prefix, preferring the longest
matching root; when no root matches it returns the empty result.
Stated as: (a) the empty result characterizes "no root matches"; (b) any
returned triple belongs to a cached section holding a matching root of
maximal length among all matching roots; (c) a section whose matching root
beats (up to triple equality) every other matching root is returned. -/
theorem c6_resolve_longest_match (cache : List SectionInfo) (p : String) :
    (getLibraryIdForPath cache p = none ↔
      ∀ sec ∈ cache, ∀ loc ∈ sec.locations,
        ¬ strStartsWith (normpath p) (normpath loc)) ∧
    (∀ tr, getLibraryIdForPath cache p = some tr →
      ∃ sec ∈ cache, sectionTriple sec = tr ∧
        ∃ loc ∈ sec.locations, strStartsWith (normpath p) (normpath loc) ∧
          ∀ sec' ∈ cache, ∀ loc' ∈ sec'.locations,
            strStartsWith (normpath p) (normpath loc') →
              (normpath loc').length ≤ (normpath loc).length) ∧
    (∀ sec ∈ cache, ∀ loc ∈ sec.locations,
      strStartsWith (normpath p) (normpath loc) →
      (∀ sec' ∈ cache, ∀ loc' ∈ sec'.locations,
        strStartsWith (normpath p) (normpath loc') →
          (normpath loc).length ≤ (normpath loc').length →
          sectionTriple sec' = sectionTriple sec) →
      getLibraryIdForPath cache p = some (sectionTriple sec)) := by
  set np := normpath p with hnp
  refine ⟨⟨?_, ?_⟩, ?_, ?_⟩
  · intro hnone sec hsec loc hloc hsw
    have hpos : 0 < maxMatchLen np cache :=
      lt_of_lt_of_le (normpath_length_pos loc) (maxMatchLen_le hsec hloc hsw)
    obtain ⟨sec', _, hres, _⟩ :=
      @resolveSecs_hit np cache ((none : Option LibTriple), 0) hpos
    rw [getLibraryIdForPath_eq_resolve, ← hnp] at hnone
    rw [hnone] at hres
    exact Option.noConfusion hres
  · intro hno
    have hzero : maxMatchLen np cache = 0 := maxMatchLen_eq_zero hno
    rw [getLibraryIdForPath_eq_resolve, ← hnp,
      @resolveSecs_no_update np cache ((none : Option LibTriple), 0) (by omega)]
  · intro tr htr
    have hpos : 0 < maxMatchLen np cache := by
      by_contra hc
      push_neg at hc
      rw [getLibraryIdForPath_eq_resolve, ← hnp,
        @resolveSecs_no_update np cache ((none : Option LibTriple), 0) (by omega)] at htr
      exact Option.noConfusion htr
    obtain ⟨sec, hsec, hres, hlen⟩ :=
      @resolveSecs_hit np cache ((none : Option LibTriple), 0) hpos
    rw [getLibraryIdForPath_eq_resolve, ← hnp, hres] at htr
    have htrip : sectionTriple sec = tr := by injection htr
    have hglob : maxMatchLenLocs np sec.locations = maxMatchLen np cache := by
      simpa using hlen
    obtain ⟨loc, hloc, hsw, hachieve⟩ :=
      @maxMatchLenLocs_exists np sec.locations (by omega)
    refine ⟨sec, hsec, htrip, loc, hloc, hsw, ?_⟩
    intro sec' hsec' loc' hloc' hsw'
    rw [hachieve, hglob]
    exact maxMatchLen_le hsec' hloc' hsw'
  · intro sec hsec loc hloc hsw huniq
    have hpos : 0 < maxMatchLen np cache :=
      lt_of_lt_of_le (normpath_length_pos loc) (maxMatchLen_le hsec hloc hsw)
    obtain ⟨sec1, hsec1, hres, hlen1⟩ :=
      @resolveSecs_hit np cache ((none : Option LibTriple), 0) hpos
    have hglob : maxMatchLenLocs np sec1.locations = maxMatchLen np cache := by
      simpa using hlen1
    obtain ⟨loc1, hloc1, hsw1, hachieve1⟩ :=
      @maxMatchLenLocs_exists np sec1.locations (by omega)
    have hlocle : (normpath loc).length ≤ (normpath loc1).length := by
      rw [hachieve1, hglob]
      exact maxMatchLen_le hsec hloc hsw
    have htripeq : sectionTriple sec1 = sectionTriple sec :=
      huniq sec1 hsec1 loc1 hloc1 hsw1 hlocle
    rw [getLibraryIdForPath_eq_resolve, ← hnp, hres, htripeq]

/-! ## HealthVerifier (`PlexScanner.check_file_health`)

The filesystem and the external `ffprobe` process are modelled as an input
record describing what each operation would return; the function mirrors the
control flow of the Python code (sequential early returns, the inner
`try/except` around the reads, the outer `except subprocess.TimeoutExpired`). -/

/-- `1024 * 1024`, the tail-read window and sample-offset margin. -/
def oneMiB : Nat := 1024 * 1024

/-- `5 * 1024 * 1024`: sampling only applies above this size. -/
def fiveMiB : Nat := 5 * 1024 * 1024

/-- The `timeout=30` passed to `subprocess.run` for ffprobe. -/
def ffprobeTimeoutSecs : Nat := 30

/-- Outcome of the ffprobe run: a timeout, or an exit with a return code and
the parse status of `result.stdout.strip()` — `none` for empty output,
`some none` for non-empty output that `float()` rejects (`ValueError`),
`some (some d)` for a parsed duration `d`. -/
inductive ProbeOutcome
  | timedOut
  | exited (returncode : Int) (durationOut : Option (Option ℚ))
deriving DecidableEq

instance {ε α : Type _} [DecidableEq ε] [DecidableEq α] :
    DecidableEq (Except ε α) := fun a b =>
  match a, b with
  | .ok x, .ok y =>
    if h : x = y then Decidable.isTrue (by rw [h])
    else Decidable.isFalse (fun hc => h (by injection hc))
  | .error x, .error y =>
    if h : x = y then Decidable.isTrue (by rw [h])
    else Decidable.isFalse (fun hc => h (by injection hc))
  | .ok _, .error _ => Decidable.isFalse (fun hc => Except.noConfusion hc)
  | .error _, .ok _ => Decidable.isFalse (fun hc => Except.noConfusion hc)

/-- Outcomes of the `f.seek`/`f.read(1024)` calls: `error` is an
`OSError`/`IOError`, `ok n` a read returning `n` bytes. -/
abbrev ReadOutcome := Except Unit Nat

/-- A read that raised. -/
def readErr : ReadOutcome → Bool
  | .error _ => true
  | .ok _ => false

/-- A sampled read that fails the check: either it raised, or it returned no
bytes (`if not f.read(1024): raise IOError(...)`). -/
def sampleBad : ReadOutcome → Bool
  | .error _ => true
  | .ok n => decide (n = 0)

structure HealthInput where
  /-- `os.path.getsize(file_path)`. -/
  size : Nat
  /-- The tail read at offset `max(0, size - 1 MiB)`. -/
  tailRead : ReadOutcome
  /-- The three sampled reads at random offsets in `[1 MiB, size - 1 MiB]`
  (attempted only when `size > 5 MiB`). -/
  sample1 : ReadOutcome
  sample2 : ReadOutcome
  sample3 : ReadOutcome
  /-- The ffprobe duration probe. -/
  probe : ProbeOutcome

inductive HealthStatus
  /-- `{"status": "Corrupt", "error": reason}`. -/
  | corrupt (reason : String)
  /-- `{"status": "Timeout", "error": "Scan Timed Out"}`. -/
  | timedOut
  /-- `{"status": "Ignored", "error": "Sample (...)"}`. -/
  | ignored
  /-- `{"status": "Healthy"}`. -/
  | healthy
deriving DecidableEq, Repr

/-- The inner `try` around the tail read and the sampled reads: `true` iff
an `(OSError, IOError)` escapes it.  The sampled loop runs only when
`file_size > 5 MiB`; a sample read raises when the read errors or returns
empty. -/
def readsFailedB (inp : HealthInput) : Bool :=
  readErr inp.tailRead ||
    (decide (inp.size > fiveMiB) &&
      (sampleBad inp.sample1 || sampleBad inp.sample2 || sampleBad inp.sample3))

/-- Steps 3-5 of `check_file_health`: the ffprobe metadata check followed by
the sample-duration gate. -/
def probePhase (cfg : Config) (probe : ProbeOutcome) : Bool × HealthStatus :=
  match probe with
  | .timedOut => (false, .timedOut)
  | .exited rc out =>
    if rc ≠ 0 then (false, .corrupt "Bitstream Error")
    else
      match out with
      | none => (false, .corrupt "No Duration")
      | some parsed =>
        if cfg.ignoreSamples then
          match parsed with
          | some d =>
            if d < cfg.minDuration then (false, .ignored) else (true, .healthy)
          | none => (true, .healthy)
        else (true, .healthy)

/-- `PlexScanner.check_file_health`, returning the `(is_healthy, status)`
pair.  Mirrors scanner.py lines 700-802. -/
def checkFileHealth (cfg : Config) (inp : HealthInput) : Bool × HealthStatus :=
  if inp.size = 0 then (false, .corrupt "0 Bytes")
  else if readsFailedB inp then (false, .corrupt "Incomplete/Read Error")
  else probePhase cfg inp.probe

/-- All read checks pass: nonzero size, tail read did not raise, and either
the file is at most 5 MiB or none of the three samples fails. -/
def ReadsPass (inp : HealthInput) : Prop :=
  inp.size ≠ 0 ∧ readErr inp.tailRead = false ∧
    (inp.size ≤ fiveMiB ∨
      (sampleBad inp.sample1 = false ∧ sampleBad inp.sample2 = false ∧
        sampleBad inp.sample3 = false))

theorem readsFailedB_eq_false {inp : HealthInput} (h : ReadsPass inp) :
    readsFailedB inp = false := by
  obtain ⟨h1, h2, h3⟩ := h
  unfold readsFailedB
  rw [h2]
  rcases h3 with h3 | ⟨ha, hb, hc⟩
  · have : decide (inp.size > fiveMiB) = false := by simpa using h3
    simp [this]
  · simp [ha, hb, hc]

/-- C8: `check_file_health` classifies files by the specified procedure, in
order: zero size is `Corrupt/"0 Bytes"`; a failed tail read, or (only above
5 MiB) any failed-or-empty sampled read, is `Corrupt/"Incomplete/Read
Error"`; then the ffprobe probe (30 s timeout) yields `Timeout` on timeout,
`Corrupt/"Bitstream Error"` on nonzero exit, `Corrupt/"No Duration"` on
empty output; then, with `ignore_samples` on and a parsed duration below
`min_duration`, the file is `Ignored`; otherwise it is healthy. -/
theorem c8_check_file_health (cfg : Config) (inp : HealthInput) :
    (inp.size = 0 → checkFileHealth cfg inp = (false, .corrupt "0 Bytes")) ∧
    (inp.size ≠ 0 → readErr inp.tailRead = true →
      checkFileHealth cfg inp = (false, .corrupt "Incomplete/Read Error")) ∧
    (inp.size ≠ 0 → fiveMiB < inp.size →
      (sampleBad inp.sample1 = true ∨ sampleBad inp.sample2 = true ∨
        sampleBad inp.sample3 = true) →
      checkFileHealth cfg inp = (false, .corrupt "Incomplete/Read Error")) ∧
    (ReadsPass inp → inp.probe = .timedOut →
      checkFileHealth cfg inp = (false, .timedOut)) ∧
    (ReadsPass inp → ∀ rc out, inp.probe = .exited rc out → rc ≠ 0 →
      checkFileHealth cfg inp = (false, .corrupt "Bitstream Error")) ∧
    (ReadsPass inp → inp.probe = .exited 0 none →
      checkFileHealth cfg inp = (false, .corrupt "No Duration")) ∧
    (ReadsPass inp → ∀ d, inp.probe = .exited 0 (some (some d)) →
      cfg.ignoreSamples = true → d < cfg.minDuration →
      checkFileHealth cfg inp = (false, .ignored)) ∧
    (ReadsPass inp → ∀ out, inp.probe = .exited 0 (some out) →
      (cfg.ignoreSamples = false ∨ out = none ∨
        ∀ d, out = some d → cfg.minDuration ≤ d) →
      checkFileHealth cfg inp = (true, .healthy)) ∧
    ffprobeTimeoutSecs = 30 := by
  refine ⟨?_, ?_, ?_, ?_, ?_, ?_, ?_, ?_, rfl⟩
  · intro h
    simp [checkFileHealth, h]
  · intro h1 h2
    simp [checkFileHealth, h1, readsFailedB, h2]
  · intro h1 h2 h3
    have hfail : readsFailedB inp = true := by
      unfold readsFailedB
      have : decide (inp.size > fiveMiB) = true := by simpa using h2
      rcases h3 with h | h | h <;> simp [this, h]
    simp [checkFileHealth, h1, hfail]
  · intro h hp
    simp [checkFileHealth, h.1, readsFailedB_eq_false h, hp, probePhase]
  · intro h rc out hp hrc
    simp [checkFileHealth, h.1, readsFailedB_eq_false h, hp, probePhase, hrc]
  · intro h hp
    simp [checkFileHealth, h.1, readsFailedB_eq_false h, hp, probePhase]
  · intro h d hp hign hd
    simp [checkFileHealth, h.1, readsFailedB_eq_false h, hp, probePhase, hign, hd]
  · intro h out hp hcase
    rcases hcase with hign | hout | hge
    · simp [checkFileHealth, h.1, readsFailedB_eq_false h, hp, probePhase, hign]
    · subst hout
      simp [checkFileHealth, h.1, readsFailedB_eq_false h, hp, probePhase]
    · cases out with
      | none =>
        simp [checkFileHealth, h.1, readsFailedB_eq_false h, hp, probePhase]
      | some d =>
        have hged : cfg.minDuration ≤ d := hge d rfl
        simp [checkFileHealth, h.1, readsFailedB_eq_false h, hp, probePhase,
          not_lt.2 hged]

/-- C7: `RecordAttempt` (`increment_attempt`) sets `attempts(p)` to 1 on the
first call and to the previous value plus one afterwards; it returns `true`
exactly when the post-increment value exceeds `max_retries` (which is 3);
consequently the recorded count is at least 1 and non-decreasing across
calls, until `clear_entry` removes the row. -/
theorem c7_record_attempt (db : TrackerDb) (p : String) :
    lookupAttempts (incrementAttempt db p).2 p = some (attemptsCount db p + 1) ∧
    (lookupAttempts db p = none →
      lookupAttempts (incrementAttempt db p).2 p = some 1) ∧
    ((incrementAttempt db p).1 = true ↔ maxRetries < attemptsCount db p + 1) ∧
    maxRetries = 3 ∧
    1 ≤ attemptsCount (incrementAttempt db p).2 p ∧
    attemptsCount db p ≤ attemptsCount (incrementAttempt db p).2 p ∧
    lookupAttempts (clearEntry db p) p = none := by
  have hmain := lookupAttempts_incrementAttempt db p
  have hcnt : attemptsCount (incrementAttempt db p).2 p = attemptsCount db p + 1 := by
    unfold attemptsCount
    rw [hmain]
    rfl
  refine ⟨hmain, ?_, ?_, rfl, by omega, by omega, lookupAttempts_clearEntry db p⟩
  · intro h
    have : attemptsCount db p = 0 := by unfold attemptsCount; rw [h]; rfl
    rw [hmain, this]
  · rw [giveUp_incrementAttempt db p]
    exact decide_eq_true_iff

theorem c7_record_attempt_witness :
    lookupAttempts (incrementAttempt [] "/m/a.mkv").2 "/m/a.mkv" = some 1 ∧
    (incrementAttempt [("/m/a.mkv", 3)] "/m/a.mkv").1 = true := by
  constructor
  · exact (c7_record_attempt [] "/m/a.mkv").2.1 rfl
  · exact ((c7_record_attempt [("/m/a.mkv", 3)] "/m/a.mkv").2.2.1).mpr (by decide)

theorem c8_check_file_health_witness :
    checkFileHealth {}
      ⟨0, .ok 1024, .ok 1024, .ok 1024, .ok 1024, .exited 0 (some (some 3600))⟩
      = (false, .corrupt "0 Bytes") ∧
    checkFileHealth {}
      ⟨1000, .ok 1024, .ok 1024, .ok 1024, .ok 1024, .exited 0 (some (some 3600))⟩
      = (true, .healthy) ∧
    checkFileHealth {}
      ⟨1000, .ok 1024, .ok 1024, .ok 1024, .ok 1024, .timedOut⟩
      = (false, .timedOut) := by
  refine ⟨(c8_check_file_health _ _).1 rfl, ?_, ?_⟩
  · exact (c8_check_file_health _ _).2.2.2.2.2.2.2.1
      ⟨by decide, rfl, Or.inl (by decide)⟩ (some 3600) rfl (Or.inl rfl)
  · exact (c8_check_file_health _ _).2.2.2.1 ⟨by decide, rfl, Or.inl (by decide)⟩ rfl

/-! ## ScanScheduler (`trigger_scan` / `_process_scan_queue`)

`trigger_scan(library_id, folder_path, force)` either dispatches immediately
(`force=True`) or stamps `pending_scans[(library_id, folder_path)]` with the
current time.  The background loop wakes roughly once a second; a pass at
time `t` extracts every pending key whose stamp is at least `debounce` old,
deletes it, and dispatches it.

The embedding replays a *trace* of timed events against the scheduler state;
the dispatch log records, for every dispatch, the key, the extracted
`last_event` stamp (`lastT`, equal to the dispatch time for forced calls)
and the time of the dispatching pass (`tickT`).  Dict-keyed update is
modelled as remove-then-append; only the set of entries matters to the
stated properties, not their position. -/

abbrev SchedKey := String × String

structure LogEntry where
  key : SchedKey
  lastT : Nat
  tickT : Nat
deriving DecidableEq, Repr

inductive SchedEv
  /-- `trigger_scan(lib, folder, force=False)` called at time `t`. -/
  | enroll (lib folder : String) (t : Nat)
  /-- `trigger_scan(lib, folder, force=True)` called at time `t`:
  `_do_trigger_scan` runs immediately, `pending_scans` is untouched. -/
  | enrollForce (lib folder : String) (t : Nat)
  /-- One pass of `_process_scan_queue` with `now = t`. -/
  | tick (t : Nat)
deriving DecidableEq, Repr

def evTime : SchedEv → Nat
  | .enroll _ _ t => t
  | .enrollForce _ _ t => t
  | .tick t => t

structure SchedState where
  pending : List (SchedKey × Nat)
  log : List LogEntry
deriving DecidableEq, Repr

def initSched : SchedState := ⟨[], []⟩

/-- `self.pending_scans[(library_id, folder_path)] = time.time()`. -/
def updateKey (k : SchedKey) (t : Nat) (l : List (SchedKey × Nat)) :
    List (SchedKey × Nat) :=
  l.filter (fun e => !(decide (e.1 = k))) ++ [(k, t)]

/-- The keys collected by `if now - last_time >= debounce_delay`. -/
def readyKeys (d t : Nat) (pend : List (SchedKey × Nat)) :
    List (SchedKey × Nat) :=
  pend.filter (fun e => decide (d ≤ t - e.2))

def schedStep (d : Nat) (s : SchedState) : SchedEv → SchedState
  | .enroll lib f t => { s with pending := updateKey (lib, f) t s.pending }
  | .enrollForce lib f t => { s with log := s.log ++ [⟨(lib, f), t, t⟩] }
  | .tick t =>
    { pending := s.pending.filter (fun e => !(decide (d ≤ t - e.2))),
      log := s.log ++ (readyKeys d t s.pending).map (fun e => ⟨e.1, e.2, t⟩) }

def schedExec (d : Nat) (evs : List SchedEv) : SchedState :=
  evs.foldl (schedStep d) initSched

/-- Times never decrease along the trace (wall-clock monotonicity). -/
def TimeMono (evs : List SchedEv) : Prop :=
  evs.Pairwise (fun a b => evTime a ≤ evTime b)

/-- The trace contains no forced dispatch. -/
def NoForce (evs : List SchedEv) : Prop :=
  ∀ lib f t, SchedEv.enrollForce lib f t ∉ evs

/-- Key `k` saw a (non-forced) enrollment at time `u` somewhere in the trace. -/
def EnrolledAt (evs : List SchedEv) (k : SchedKey) (u : Nat) : Prop :=
  SchedEv.enroll k.1 k.2 u ∈ evs

theorem schedExec_append (d : Nat) (evs : List SchedEv) (e : SchedEv) :
    schedExec d (evs ++ [e]) = schedStep d (schedExec d evs) e := by
  unfold schedExec
  rw [List.foldl_append]
  rfl

/-- Composite invariant, relative to the trace: every pending entry records
the latest enrollment of its key and postdates every logged dispatch of its
key; every logged dispatch waited a full debounce after the latest
enrollment it covers, and splits the trace's enrollments of its key into
"no later than `lastT`" and "no earlier than `tickT`"; dispatches of one key
are separated from the next pending stamp; pending keys are unique. -/
structure SchedInv (d : Nat) (evs : List SchedEv) (s : SchedState) : Prop where
  pend : ∀ pe ∈ s.pending,
    EnrolledAt evs pe.1 pe.2 ∧
    (∀ u, EnrolledAt evs pe.1 u → u ≤ pe.2) ∧
    (∀ le ∈ s.log, le.key = pe.1 → le.tickT ≤ pe.2)
  log : ∀ le ∈ s.log,
    le.lastT + d ≤ le.tickT ∧
    SchedEv.tick le.tickT ∈ evs ∧
    EnrolledAt evs le.key le.lastT ∧
    (∀ u, EnrolledAt evs le.key u → u ≤ le.lastT ∨ le.tickT ≤ u)
  ord : s.log.Pairwise (fun a b => a.key = b.key → a.tickT ≤ b.lastT)
  keys : (s.pending.map Prod.fst).Nodup

theorem mem_updateKey {k : SchedKey} {t : Nat} {l : List (SchedKey × Nat)}
    {pe : SchedKey × Nat} (h : pe ∈ updateKey k t l) :
    (pe ∈ l ∧ pe.1 ≠ k) ∨ pe = (k, t) := by
  unfold updateKey at h
  rcases List.mem_append.1 h with h | h
  · rcases List.mem_filter.1 h with ⟨hm, hf⟩
    exact Or.inl ⟨hm, by simpa using hf⟩
  · exact Or.inr (by simpa using h)

theorem keys_nodup_filter {l : List (SchedKey × Nat)} (f : SchedKey × Nat → Bool)
    (h : (l.map Prod.fst).Nodup) : ((l.filter f).map Prod.fst).Nodup :=
  List.Nodup.sublist (List.Sublist.map Prod.fst (List.filter_sublist l)) h

theorem keys_nodup_updateKey {k : SchedKey} {t : Nat} {l : List (SchedKey × Nat)}
    (h : (l.map Prod.fst).Nodup) : ((updateKey k t l).map Prod.fst).Nodup := by
  unfold updateKey
  rw [List.map_append]
  refine List.Nodup.append (keys_nodup_filter _ h) (by simp) ?_
  intro a ha hb
  rw [List.mem_map] at ha
  obtain ⟨pe, hpe, rfl⟩ := ha
  have hne : ¬ (pe.1 = k) := by simpa using (List.mem_filter.1 hpe).2
  simp at hb
  exact hne hb

theorem keys_eq_of_nodup {l : List (SchedKey × Nat)} (h : (l.map Prod.fst).Nodup)
    {a b : SchedKey × Nat} (ha : a ∈ l) (hb : b ∈ l) (hk : a.1 = b.1) : a = b := by
  induction l with
  | nil => cases ha
  | cons e tl ih =>
    rw [List.map_cons, List.nodup_cons] at h
    rcases List.mem_cons.1 ha with rfl | ha' <;> rcases List.mem_cons.1 hb with rfl | hb'
    · rfl
    · exact absurd (hk ▸ List.mem_map_of_mem Prod.fst hb') h.1
    · exact absurd (hk ▸ List.mem_map_of_mem Prod.fst ha') h.1
    · exact ih h.2 ha' hb'

theorem pairwise_keys_ne {l : List (SchedKey × Nat)}
    (h : (l.map Prod.fst).Nodup) : l.Pairwise (fun a b => a.1 ≠ b.1) := by
  simpa [List.Nodup, List.pairwise_map] using h

theorem timeMono_append {evs : List SchedEv} {e : SchedEv}
    (h : TimeMono (evs ++ [e])) :
    TimeMono evs ∧ ∀ a ∈ evs, evTime a ≤ evTime e := by
  rw [TimeMono, List.pairwise_append] at h
  exact ⟨h.1, fun a ha => h.2.2 a ha e (List.mem_singleton_self e)⟩

theorem noForce_append {evs : List SchedEv} {e : SchedEv}
    (h : NoForce (evs ++ [e])) :
    NoForce evs ∧ ∀ lib f t, e ≠ SchedEv.enrollForce lib f t := by
  refine ⟨fun lib f t hmem => h lib f t (List.mem_append_left _ hmem), ?_⟩
  intro lib f t he
  subst he
  exact h lib f t (List.mem_append_right _ (List.mem_singleton_self _))

theorem enrolledAt_append {evs : List SchedEv} {e : SchedEv} {k : SchedKey}
    {u : Nat} :
    EnrolledAt (evs ++ [e]) k u ↔
      EnrolledAt evs k u ∨ e = SchedEv.enroll k.1 k.2 u := by
  unfold EnrolledAt
  rw [List.mem_append, List.mem_singleton]
  constructor
  · rintro (h | h)
    · exact Or.inl h
    · exact Or.inr h.symm
  · rintro (h | h)
    · exact Or.inl h
    · exact Or.inr h.symm

theorem schedInv_of_trace (d : Nat) (evs : List SchedEv)
    (hm : TimeMono evs) (hnf : NoForce evs) :
    SchedInv d evs (schedExec d evs) := by
  induction evs using List.reverseRecOn with
  | nil =>
    exact ⟨by simp [schedExec, initSched], by simp [schedExec, initSched],
      by simp [schedExec, initSched], by simp [schedExec, initSched]⟩
  | append_singleton evs e ih =>
    obtain ⟨hm', hle⟩ := timeMono_append hm
    obtain ⟨hnf', hne⟩ := noForce_append hnf
    have IH := ih hm' hnf'
    rw [schedExec_append]
    set s := schedExec d evs with hs
    cases e with
    | enrollForce lib f t => exact absurd rfl (hne lib f t)
    | enroll lib f t =>
      simp only [schedStep]
      refine ⟨?_, ?_, ?_, ?_⟩
      · intro pe hpe
        rcases mem_updateKey hpe with ⟨hmem, hkne⟩ | rfl
        · obtain ⟨h1, h2, h3⟩ := IH.pend pe hmem
          refine ⟨enrolledAt_append.2 (Or.inl h1), ?_, h3⟩
          intro u hu
          rcases enrolledAt_append.1 hu with hu | hu
          · exact h2 u hu
          · injection hu with h1' h2' h3'
            exact absurd (Prod.ext h1'.symm h2'.symm) hkne
        · refine ⟨enrolledAt_append.2 (Or.inr rfl), ?_, ?_⟩
          · intro u hu
            rcases enrolledAt_append.1 hu with hu | hu
            · exact hle _ hu
            · injection hu with _ _ h3'
              omega
          · intro le hle'
            intro _
            have h2 := (IH.log le hle').2.1
            exact hle _ h2
      · intro le hle'
        obtain ⟨g1, g2, g3, g4⟩ := IH.log le hle'
        refine ⟨g1, List.mem_append_left _ g2, enrolledAt_append.2 (Or.inl g3), ?_⟩
        intro u hu
        rcases enrolledAt_append.1 hu with hu | hu
        · exact g4 u hu
        · right
          injection hu with _ _ h3'
          subst h3'
          exact hle _ g2
      · exact IH.ord
      · exact keys_nodup_updateKey IH.keys
    | tick t =>
      simp only [schedStep]
      refine ⟨?_, ?_, ?_, ?_⟩
      · intro pe hpe
        obtain ⟨hmem, hcond⟩ := List.mem_filter.1 hpe
        have hnotready : ¬ (d ≤ t - pe.2) := by simpa using hcond
        obtain ⟨h1, h2, h3⟩ := IH.pend pe hmem
        refine ⟨enrolledAt_append.2 (Or.inl h1), ?_, ?_⟩
        · intro u hu
          rcases enrolledAt_append.1 hu with hu | hu
          · exact h2 u hu
          · exact absurd hu (by simp)
        · intro le hle'
          rcases List.mem_append.1 hle' with hle' | hle'
          · exact h3 le hle'
          · obtain ⟨q, hq, rfl⟩ := List.mem_map.1 hle'
            obtain ⟨hqmem, hqcond⟩ := List.mem_filter.1 hq
            intro hkey
            have hqr : d ≤ t - q.2 := by simpa using hqcond
            have : q = pe := keys_eq_of_nodup IH.keys hqmem hmem hkey
            subst this
            exact absurd hqr hnotready
      · intro le hle'
        rcases List.mem_append.1 hle' with hle' | hle'
        · obtain ⟨g1, g2, g3, g4⟩ := IH.log le hle'
          refine ⟨g1, List.mem_append_left _ g2, enrolledAt_append.2 (Or.inl g3), ?_⟩
          intro u hu
          rcases enrolledAt_append.1 hu with hu | hu
          · exact g4 u hu
          · exact absurd hu (by simp)
        · obtain ⟨q, hq, rfl⟩ := List.mem_map.1 hle'
          obtain ⟨hqmem, hqcond⟩ := List.mem_filter.1 hq
          have hqr : d ≤ t - q.2 := by simpa using hqcond
          obtain ⟨p1, p2, _⟩ := IH.pend q hqmem
          have hq2t : q.2 ≤ t := hle _ p1
          refine ⟨by dsimp only; omega, List.mem_append_right _ (by simp),
            enrolledAt_append.2 (Or.inl p1), ?_⟩
          intro u hu
          rcases enrolledAt_append.1 hu with hu | hu
          · exact Or.inl (p2 u hu)
          · exact absurd hu (by simp)
      · rw [List.pairwise_append]
        refine ⟨IH.ord, ?_, ?_⟩
        · have hready : (readyKeys d t s.pending).Pairwise (fun a b => a.1 ≠ b.1) :=
            pairwise_keys_ne (keys_nodup_filter _ IH.keys)
          refine List.Pairwise.map _ ?_ hready
          intro a b hab hkey
          exact absurd hkey hab
        · intro a ha b hb
          obtain ⟨q, hq, rfl⟩ := List.mem_map.1 hb
          obtain ⟨hqmem, _⟩ := List.mem_filter.1 hq
          intro hkey
          exact (IH.pend q hqmem).2.2 a ha hkey
      · exact keys_nodup_filter _ IH.keys

theorem pairwise_of_split {α : Type _} {R : α → α → Prop} {A B C : List α}
    {x y : α} (h : (A ++ x :: B ++ y :: C).Pairwise R) : R x y := by
  rw [List.pairwise_append] at h
  exact h.2.2 x (List.mem_append_right _ (List.mem_cons_self _ _)) y
    (List.mem_cons_self _ _)

/-- C2 (amended to non-forced dispatches): in any monotone trace without
forced dispatches, whenever the dispatch log contains two dispatches of the
same `(section, folder)` key, the later one was extracted at least `debounce`
after its recorded last-enrollment stamp, that stamp is no earlier than the
earlier dispatch, and every enrollment of the key in the whole trace falls
either at or before the stamp or at or after the later dispatch — so the
half-open window from the stamp to the later dispatch is at least `debounce`
long, lies between the two dispatches, and contains no enrollment activity
for the key; consequently successive dispatches are at least `debounce`
apart (coalescing), and a tick removes every entry it extracts from the
pending map. -/
theorem c2_debounce_window (d : Nat) (evs : List SchedEv) (k : SchedKey)
    (e1 e2 : LogEntry) (A B C : List LogEntry)
    (hm : TimeMono evs) (hnf : NoForce evs)
    (hk1 : e1.key = k) (hk2 : e2.key = k)
    (hlog : (schedExec d evs).log = A ++ e1 :: B ++ e2 :: C) :
    e1.tickT ≤ e2.lastT ∧
    e2.lastT + d ≤ e2.tickT ∧
    e1.tickT + d ≤ e2.tickT ∧
    (∀ u, EnrolledAt evs k u → u ≤ e2.lastT ∨ e2.tickT ≤ u) ∧
    (∀ (s : SchedState) (t : Nat) (pe : SchedKey × Nat),
      pe ∈ readyKeys d t s.pending →
        pe ∉ (schedStep d s (SchedEv.tick t)).pending) := by
  have Inv := schedInv_of_trace d evs hm hnf
  have he2mem : e2 ∈ (schedExec d evs).log := by
    rw [hlog]
    simp
  have hord := Inv.ord
  rw [hlog] at hord
  have h1 : e1.tickT ≤ e2.lastT :=
    pairwise_of_split hord (hk1.trans hk2.symm)
  obtain ⟨g1, _, _, g4⟩ := Inv.log e2 he2mem
  refine ⟨h1, g1, by omega, ?_, ?_⟩
  · intro u hu
    exact g4 u (by rw [hk2]; exact hu)
  · intro s t pe hready hmem
    have hcond := (List.mem_filter.1 hready).2
    simp only [schedStep] at hmem
    have hmem' := (List.mem_filter.1 hmem).2
    simp only [readyKeys] at hcond
    simp at hcond hmem'
    omega

theorem c2_debounce_window_witness :
    (10 : Nat) ≤ 15 ∧ 15 + 10 ≤ 25 ∧ 10 + 10 ≤ 25 ∧
    (∀ u, EnrolledAt [SchedEv.enroll "1" "/f" 0, SchedEv.tick 10,
        SchedEv.enroll "1" "/f" 15, SchedEv.tick 25] ("1", "/f") u →
      u ≤ 15 ∨ 25 ≤ u) ∧
    (∀ (s : SchedState) (t : Nat) (pe : SchedKey × Nat),
      pe ∈ readyKeys 10 t s.pending →
        pe ∉ (schedStep 10 s (SchedEv.tick t)).pending) := by
  have hm : TimeMono [SchedEv.enroll "1" "/f" 0, SchedEv.tick 10,
      SchedEv.enroll "1" "/f" 15, SchedEv.tick 25] := by
    unfold TimeMono
    simp [List.pairwise_cons, evTime]
  have hnf : NoForce [SchedEv.enroll "1" "/f" 0, SchedEv.tick 10,
      SchedEv.enroll "1" "/f" 15, SchedEv.tick 25] := by
    intro lib f t h
    simp at h
  exact c2_debounce_window 10 _ ("1", "/f")
    ⟨("1", "/f"), 0, 10⟩ ⟨("1", "/f"), 15, 25⟩ [] [] [] hm hnf rfl rfl (by decide)

/-- C2 counterexample for the claim as stated (covering all dispatches):
after a debounced dispatch at time 10, a forced enrollment
(`trigger_scan(..., force=True)`) dispatches the same key again at time 12;
the two successive dispatches of `("1", "/f")` are 2 s apart, so no window
of `debounce = 10` seconds fits between them at all. -/
theorem c2_forced_dispatch_cex :
    TimeMono [SchedEv.enroll "1" "/f" 0, SchedEv.tick 10,
      SchedEv.enrollForce "1" "/f" 12] ∧
    (schedExec 10 [SchedEv.enroll "1" "/f" 0, SchedEv.tick 10,
        SchedEv.enrollForce "1" "/f" 12]).log
      = [⟨("1", "/f"), 0, 10⟩, ⟨("1", "/f"), 12, 12⟩] ∧
    ¬ ∃ a b : Nat, 10 ≤ a ∧ b ≤ 12 ∧ a + 10 ≤ b := by
  refine ⟨?_, by decide, ?_⟩
  · unfold TimeMono
    simp [List.pairwise_cons, evTime]
  · rintro ⟨a, b, h1, h2, h3⟩
    omega

/-! ## Refresh dispatch pool (`_process_scan_queue` → `scan_monitor_executor`)

Every ready key is submitted as its own task to `scan_monitor_executor`
(4 workers); for Plex a task (`_trigger_plex_scan`) first issues the refresh
GET and then polls `/activities` until no refresh for its section is
running.  No lock or ordering exists between tasks, so the pool is modelled
as an arbitrary interleaving of per-task steps: `issue i` is task `i`'s
refresh request being accepted by the server, `finish i` is task `i`'s
wait-for-idle returning.  Each task issues before it finishes; invalid
steps leave the state unchanged. -/

inductive TaskPhase
  | notStarted
  | inFlight
  | done
deriving DecidableEq, Repr

inductive DispStep
  | issue (i : Nat)
  | finish (i : Nat)
deriving DecidableEq, Repr

def dispInit (tasks : List String) : List TaskPhase :=
  tasks.map (fun _ => TaskPhase.notStarted)

def dispStepFn (st : List TaskPhase) : DispStep → List TaskPhase
  | .issue i => if st.getD i .done = .notStarted then st.set i .inFlight else st
  | .finish i => if st.getD i .done = .inFlight then st.set i .done else st

def dispExec (tasks : List String) (sched : List DispStep) : List TaskPhase :=
  sched.foldl dispStepFn (dispInit tasks)

/-- Number of refreshes outstanding for section `sec`: tasks whose refresh
was accepted but whose `WaitForSectionIdle` has not returned. -/
def outstanding (tasks : List String) (st : List TaskPhase) (sec : String) : Nat :=
  ((tasks.zip st).filter
    (fun q => decide (q.1 = sec) && decide (q.2 = TaskPhase.inFlight))).length

def totalInFlight (st : List TaskPhase) : Nat :=
  (st.filter (fun q => decide (q = TaskPhase.inFlight))).length

/-- A schedule in which dispatch tasks run strictly one after another (as
with a single pool worker): each task's refresh is immediately followed by
its wait-for-idle. -/
inductive SerialSched : List DispStep → Prop
  | nil : SerialSched []
  | pair (i : Nat) {rest : List DispStep} : SerialSched rest →
      SerialSched (DispStep.issue i :: DispStep.finish i :: rest)

theorem outstanding_le_total (tasks : List String) (st : List TaskPhase)
    (sec : String) : outstanding tasks st sec ≤ totalInFlight st := by
  induction tasks generalizing st with
  | nil => simp [outstanding]
  | cons a ts ih =>
    cases st with
    | nil => simp [outstanding]
    | cons b ss =>
      have ihb := ih ss
      by_cases hb : b = TaskPhase.inFlight
      · by_cases ha : a = sec
        · simp [outstanding, totalInFlight, List.zip, List.filter, ha, hb] at ihb ⊢
          omega
        · simp [outstanding, totalInFlight, List.zip, List.filter, ha, hb] at ihb ⊢
          omega
      · by_cases ha : a = sec
        · simp [outstanding, totalInFlight, List.zip, List.filter, ha, hb] at ihb ⊢
          omega
        · simp [outstanding, totalInFlight, List.zip, List.filter, ha, hb] at ihb ⊢
          omega

theorem totalInFlight_dispInit (tasks : List String) :
    totalInFlight (dispInit tasks) = 0 := by
  induction tasks with
  | nil => rfl
  | cons a ts ih => simp [dispInit, totalInFlight, List.filter] at ih ⊢

theorem getD_ne_inFlight_of_total_zero {st : List TaskPhase}
    (h : totalInFlight st = 0) (i : Nat) :
    st.getD i TaskPhase.done ≠ TaskPhase.inFlight := by
  induction st generalizing i with
  | nil => cases i <;> simp [List.getD]
  | cons b ss ih =>
    have hb : b ≠ TaskPhase.inFlight := by
      intro hb
      simp [totalInFlight, List.filter, hb] at h
    have hss : totalInFlight ss = 0 := by
      by_cases hb' : b = TaskPhase.inFlight
      · exact absurd hb' hb
      · simpa [totalInFlight, List.filter, hb'] using h
    cases i with
    | zero => simpa [List.getD] using hb
    | succ j => simpa [List.getD] using ih hss j

theorem getD_set_self (st : List TaskPhase) (i : Nat) (v : TaskPhase)
    (h : i < st.length) : (st.set i v).getD i TaskPhase.done = v := by
  induction st generalizing i with
  | nil => simp at h
  | cons b ss ih =>
    cases i with
    | zero => simp [List.set, List.getD]
    | succ j =>
      simp only [List.set, List.getD_cons_succ]
      exact ih j (by simpa using h)

theorem lt_length_of_getD {st : List TaskPhase} {i : Nat} {v : TaskPhase}
    (hv : v ≠ TaskPhase.done) (h : st.getD i TaskPhase.done = v) :
    i < st.length := by
  by_contra hc
  push_neg at hc
  rw [List.getD_eq_default _ _ hc] at h
  exact hv h.symm

theorem totalInFlight_set_inFlight {st : List TaskPhase} {i : Nat}
    (h : st.getD i TaskPhase.done = TaskPhase.notStarted) :
    totalInFlight (st.set i TaskPhase.inFlight) = totalInFlight st + 1 := by
  induction st generalizing i with
  | nil =>
    exact absurd h (by cases i <;> simp [List.getD])
  | cons b ss ih =>
    cases i with
    | zero =>
      have hb : b = TaskPhase.notStarted := by simpa [List.getD] using h
      simp [List.set, totalInFlight, List.filter, hb]
    | succ j =>
      have hj : ss.getD j TaskPhase.done = TaskPhase.notStarted := by
        simpa [List.getD] using h
      have := ih hj
      by_cases hb : b = TaskPhase.inFlight <;>
        simp [List.set, totalInFlight, List.filter, hb] at this ⊢ <;> omega

theorem totalInFlight_set_done {st : List TaskPhase} {i : Nat}
    (h : st.getD i TaskPhase.done = TaskPhase.inFlight) :
    totalInFlight (st.set i TaskPhase.done) + 1 = totalInFlight st := by
  induction st generalizing i with
  | nil =>
    exact absurd h (by cases i <;> simp [List.getD])
  | cons b ss ih =>
    cases i with
    | zero =>
      have hb : b = TaskPhase.inFlight := by simpa [List.getD] using h
      simp [List.set, totalInFlight, List.filter, hb]
    | succ j =>
      have hj : ss.getD j TaskPhase.done = TaskPhase.inFlight := by
        simpa [List.getD] using h
      have := ih hj
      by_cases hb : b = TaskPhase.inFlight <;>
        simp [List.set, totalInFlight, List.filter, hb] at this ⊢ <;> omega

theorem totalInFlight_pair_zero (st : List TaskPhase) (i : Nat)
    (h0 : totalInFlight st = 0) :
    totalInFlight (dispStepFn (dispStepFn st (.issue i)) (.finish i)) = 0 := by
  by_cases h : st.getD i TaskPhase.done = TaskPhase.notStarted
  · have hlen : i < st.length := lt_length_of_getD (by decide) h
    simp only [dispStepFn, if_pos h]
    have hmid : (st.set i TaskPhase.inFlight).getD i TaskPhase.done
        = TaskPhase.inFlight := getD_set_self st i _ hlen
    rw [if_pos hmid]
    have h1 := totalInFlight_set_inFlight h
    have h2 := totalInFlight_set_done hmid
    omega
  · simp only [dispStepFn, if_neg h]
    rw [if_neg (getD_ne_inFlight_of_total_zero h0 i)]
    exact h0

theorem serial_total_le (sched : List DispStep) (h : SerialSched sched) :
    ∀ st, totalInFlight st = 0 → ∀ n,
      totalInFlight (List.foldl dispStepFn st (sched.take n)) ≤ 1 := by
  induction h with
  | nil =>
    intro st h0 n
    simpa using le_of_eq h0 |>.trans (by omega)
  | pair i hrest ih =>
    intro st h0 n
    match n with
    | 0 => simpa using by omega
    | 1 =>
      simp only [List.take, List.foldl]
      by_cases h : st.getD i TaskPhase.done = TaskPhase.notStarted
      · simp only [dispStepFn, if_pos h]
        rw [totalInFlight_set_inFlight h]
        omega
      · simp only [dispStepFn, if_neg h]
        omega
    | (m + 2) =>
      simp only [List.take, List.foldl]
      exact ih _ (totalInFlight_pair_zero st i h0) m

/-- C4 (amended): when dispatch tasks execute serially — one worker, each
refresh followed by its wait-for-idle before the next task starts — at most
one refresh per section is outstanding at every instant. -/
theorem c4_serialized_dispatch (tasks : List String) (sched : List DispStep)
    (h : SerialSched sched) (n : Nat) (sec : String) :
    outstanding tasks (dispExec tasks (sched.take n)) sec ≤ 1 :=
  le_trans (outstanding_le_total tasks _ sec)
    (serial_total_le sched h (dispInit tasks) (totalInFlight_dispInit tasks) n)

theorem c4_serialized_dispatch_witness :
    outstanding ["1", "2"]
      (dispExec ["1", "2"]
        ([DispStep.issue 0, DispStep.finish 0,
          DispStep.issue 1, DispStep.finish 1].take 3)) "1" ≤ 1 :=
  c4_serialized_dispatch ["1", "2"] _
    (SerialSched.pair 0 (SerialSched.pair 1 SerialSched.nil)) 3 "1"

/-- C4 counterexample: two ready folders of the same section are submitted
as two pool tasks; both issue their refresh before either wait-for-idle
returns, so two refreshes for section "1" are outstanding at once. -/
theorem c4_concurrent_refresh_cex :
    outstanding ["1", "1"]
      (dispExec ["1", "1"] [DispStep.issue 0, DispStep.issue 1]) "1" = 2 ∧
    ¬ (outstanding ["1", "1"]
        (dispExec ["1", "1"] [DispStep.issue 0, DispStep.issue 1]) "1" ≤ 1) := by
  refine ⟨by decide, by decide⟩

/-! ## SweepEngine dispatch phase (`run_scan`, lines 1134-1155)

After the parallel walk, `run_scan` holds `stats` (with `total_missing`) and
the deduplicated `folders_to_scan` set.  The remainder of the function is
modelled as the list of externally visible calls it makes, in order.  The
"scan aborted" notification passes through `send_single_notification` /
`_send_discord_embed`, which drops it unless notifications are enabled and a
webhook URL is configured; the two summary senders and `save_history` are
recorded as invocations. -/

inductive SweepAction
  /-- The "🚨 Scan Aborted (Safety Trigger)" embed handed to the webhook
  sender. -/
  | abortNotice
  /-- `stats.send_discord_pending(len(folders_to_scan))`. -/
  | pendingSummaryCall (foldersCount : Nat)
  /-- `self.trigger_scan(library_id, folder_path)` — `force` records the
  (defaulted) keyword argument. -/
  | enrollScan (lib folder : String) (force : Bool)
  /-- `tracker.save_history()`. -/
  | saveHistoryCall
  /-- `stats.send_discord_summary()`. -/
  | finalSummaryCall
deriving DecidableEq, Repr

/-- `self.config.get('DELETION_THRESHOLD', 50)`. -/
def effDeletionThreshold (cfg : Config) : Nat := cfg.deletionThreshold.getD 50

/-- `send_single_notification` → `_send_discord_embed`: the embed reaches
the webhook sender only when notifications are enabled and a URL is set. -/
def abortNoticeActions (cfg : Config) : List SweepAction :=
  if cfg.notificationsEnabled ∧ cfg.webhookUrl.isSome then
    [SweepAction.abortNotice]
  else []

/-- Lexicographic `≤` on character lists — Python's string comparison
(by code point). -/
def chListLe : List Char → List Char → Bool
  | [], _ => true
  | _ :: _, [] => false
  | a :: as, b :: bs => if a = b then chListLe as bs else decide (a < b)

/-- Python `a <= b` on strings. -/
def strLe (a b : String) : Bool := chListLe a.toList b.toList

theorem chListLe_total (as bs : List Char) :
    chListLe as bs = true ∨ chListLe bs as = true := by
  induction as generalizing bs with
  | nil => exact Or.inl rfl
  | cons a as' ih =>
    cases bs with
    | nil => exact Or.inr rfl
    | cons b bs' =>
      by_cases hab : a = b
      · subst hab
        rcases ih bs' with h | h
        · exact Or.inl (by simpa [chListLe] using h)
        · exact Or.inr (by simpa [chListLe] using h)
      · rcases lt_or_gt_of_ne hab with h | h
        · exact Or.inl (by simp [chListLe, hab, h])
        · exact Or.inr (by simp [chListLe, Ne.symm hab, h])

theorem chListLe_trans {as bs cs : List Char}
    (h1 : chListLe as bs = true) (h2 : chListLe bs cs = true) :
    chListLe as cs = true := by
  induction as generalizing bs cs with
  | nil => rfl
  | cons a as' ih =>
    cases bs with
    | nil => simp [chListLe] at h1
    | cons b bs' =>
      cases cs with
      | nil => simp [chListLe] at h2
      | cons c cs' =>
        by_cases hab : a = b <;> by_cases hbc : b = c
        · subst hab; subst hbc
          simp only [chListLe, if_pos rfl] at h1 h2 ⊢
          exact ih h1 h2
        · subst hab
          have hlt : a < c := by
            simpa [chListLe, hbc] using h2
          have hac : a ≠ c := ne_of_lt hlt
          simp [chListLe, hac, hlt]
        · subst hbc
          have hlt : a < b := by
            simpa [chListLe, hab] using h1
          have hac : a ≠ b := ne_of_lt hlt
          simp [chListLe, hac, hlt]
        · have hlt1 : a < b := by simpa [chListLe, hab] using h1
          have hlt2 : b < c := by simpa [chListLe, hbc] using h2
          have hlt : a < c := lt_trans hlt1 hlt2
          simp [chListLe, ne_of_lt hlt, hlt]

/-- `sorted(list(folders_to_scan), key=lambda x: x[1])`. -/
def sortByPath (l : List (String × String)) : List (String × String) :=
  l.insertionSort (fun a b => strLe a.2 b.2 = true)

instance : IsTotal (String × String) (fun a b => strLe a.2 b.2 = true) :=
  ⟨fun a b => chListLe_total a.2.toList b.2.toList⟩

instance : IsTrans (String × String) (fun a b => strLe a.2 b.2 = true) :=
  ⟨fun _ _ _ h1 h2 => chListLe_trans h1 h2⟩

/-- `run_scan` after the walk (scanner.py lines 1134-1155): the
mass-deletion safety check, then the pending summary, the path-sorted
`trigger_scan` calls (no `force` argument, so `force=False`), and the
final `save_history` / summary calls. -/
def runScanPostWalk (cfg : Config) (totalMissing : Nat)
    (folders : List (String × String)) : List SweepAction :=
  if cfg.abortOnMassDeletion ∧ effDeletionThreshold cfg < totalMissing then
    abortNoticeActions cfg
  else
    (if 0 < totalMissing then
      SweepAction.pendingSummaryCall folders.length ::
        (sortByPath folders).map (fun q => SweepAction.enrollScan q.1 q.2 false)
    else []) ++ [SweepAction.saveHistoryCall, SweepAction.finalSummaryCall]

/-- C1: with `abort_on_mass_deletion` on and `total_missing` above the
threshold (default 50), the sweep's dispatch phase is skipped entirely —
no `trigger_scan` call is made, exactly one "scan aborted" notification is
emitted, and the function returns (not even reaching the summary calls). -/
theorem c1_mass_deletion_abort (cfg : Config) (totalMissing : Nat)
    (folders : List (String × String))
    (h1 : cfg.abortOnMassDeletion = true)
    (h2 : effDeletionThreshold cfg < totalMissing)
    (h3 : cfg.notificationsEnabled = true)
    (h4 : cfg.webhookUrl.isSome = true) :
    runScanPostWalk cfg totalMissing folders = [SweepAction.abortNotice] ∧
    (∀ lib folder force,
      SweepAction.enrollScan lib folder force ∉
        runScanPostWalk cfg totalMissing folders) ∧
    (runScanPostWalk cfg totalMissing folders).count SweepAction.abortNotice = 1 := by
  have hout : runScanPostWalk cfg totalMissing folders = [SweepAction.abortNotice] := by
    unfold runScanPostWalk abortNoticeActions
    rw [if_pos ⟨h1, h2⟩, if_pos ⟨h3, h4⟩]
  refine ⟨hout, ?_, ?_⟩
  · intro lib folder force
    rw [hout]
    simp
  · rw [hout]
    simp

theorem c1_mass_deletion_abort_witness :
    runScanPostWalk
      { abortOnMassDeletion := true, webhookUrl := some "https://example/hook" }
      51 [("1", "/b")] = [SweepAction.abortNotice] :=
  (c1_mass_deletion_abort
    { abortOnMassDeletion := true, webhookUrl := some "https://example/hook" }
    51 [("1", "/b")] rfl (by decide) rfl rfl).1

/-- C3 counterexample: a sweep that finds one missing item (mass-deletion
check passing) enrolls its folder through `trigger_scan` with the *default*
`force=False`, not `force=True` as claimed: the forced enrollment never
appears among the sweep's calls. -/
theorem c3_sweep_force_cex :
    SweepAction.enrollScan "1" "/a" false ∈
      runScanPostWalk { webhookUrl := some "https://example/hook" } 1 [("1", "/a")] ∧
    (∀ lib folder, SweepAction.enrollScan lib folder true ∉
      runScanPostWalk { webhookUrl := some "https://example/hook" } 1 [("1", "/a")]) := by
  have hout : runScanPostWalk { webhookUrl := some "https://example/hook" } 1
      [("1", "/a")]
      = [SweepAction.pendingSummaryCall 1, SweepAction.enrollScan "1" "/a" false,
         SweepAction.saveHistoryCall, SweepAction.finalSummaryCall] := by decide
  rw [hout]
  constructor
  · simp
  · intro lib folder
    simp

/-- C3 (amended): when the sweep finds missing items and the mass-deletion
check passes, it invokes the "pending" summary sender, then enrolls every
`(section_id, folder)` in path-sorted order via `trigger_scan` with the
default `force=False` (so the shared debounced queue and 4-worker dispatch
pool handle them, rather than a serial forced dispatch), and afterwards
invokes the final summary sender. -/
theorem c3_sweep_dispatch (cfg : Config) (totalMissing : Nat)
    (folders : List (String × String))
    (h1 : ¬ (cfg.abortOnMassDeletion = true ∧
      effDeletionThreshold cfg < totalMissing))
    (h2 : 0 < totalMissing) :
    runScanPostWalk cfg totalMissing folders =
      SweepAction.pendingSummaryCall folders.length ::
        (sortByPath folders).map (fun q => SweepAction.enrollScan q.1 q.2 false)
        ++ [SweepAction.saveHistoryCall, SweepAction.finalSummaryCall] ∧
    List.Perm (sortByPath folders) folders ∧
    (sortByPath folders).Pairwise (fun a b => strLe a.2 b.2 = true) ∧
    (∀ lib folder, SweepAction.enrollScan lib folder true ∉
      runScanPostWalk cfg totalMissing folders) := by
  have hout : runScanPostWalk cfg totalMissing folders =
      SweepAction.pendingSummaryCall folders.length ::
        (sortByPath folders).map (fun q => SweepAction.enrollScan q.1 q.2 false)
        ++ [SweepAction.saveHistoryCall, SweepAction.finalSummaryCall] := by
    unfold runScanPostWalk
    rw [if_neg h1, if_pos h2]
  refine ⟨hout, List.perm_insertionSort _ folders,
    List.sorted_insertionSort _ folders, ?_⟩
  intro lib folder h
  rw [hout] at h
  simp at h

/-! ## EventProcessor (`submit_file_event` → `scan_file`) and the sweep's
per-file handlers (`scan_directory`, `run_scan` top level)

`submit_file_event('created'|'moved', p)` submits `self.scan_file(p)` to the
event pool with the *default* `stats=None`, `tracker=None`; `scan_file` then
falls back to `tracker = self.history` — but `stats` stays `None`.
Filesystem behaviour and remote membership for the one file are inputs
(`FileEnv`); the result is a normal return carrying the visible effects, or
a raised Python exception. -/

/-- Python truthiness of an optional string (`None` and `""` are falsy). -/
def pyTruthyStr : Option String → Bool
  | none => false
  | some s => decide (s ≠ "")

structure FileEnv where
  /-- `self.is_ignored(file_path)`. -/
  ignored : Bool := false
  /-- `self.is_broken_symlink(file_path)`. -/
  brokenSymlink : Bool := false
  /-- `os.path.getsize(file_path)`; `error` is an `OSError`. -/
  sizeResult : Except Unit Nat := .ok 1
  /-- `self.is_in_library(file_path)`. -/
  inLibrary : Bool := false
  /-- What the health check would observe, when it runs. -/
  healthInput : HealthInput := ⟨1, .ok 1, .ok 1, .ok 1, .ok 1, .exited 0 (some none)⟩
  /-- `library_id in self.library_files` for this file's resolved library. -/
  libCacheHasLib : Bool := false

/-- In-memory `RunStats` mirror (only the fields the embedded paths touch). -/
structure RunStatsM where
  missingItems : List (Option String × String) := []
  stuckItems : List String := []
  corruptItems : List String := []
  totalScanned : Nat := 0
  totalMissing : Nat := 0
  brokenSymlinks : Nat := 0
deriving DecidableEq, Repr

def statsAddMissing (s : RunStatsM) (lib : Option String) (p : String) : RunStatsM :=
  { s with missingItems := s.missingItems ++ [(lib, p)],
           totalMissing := s.totalMissing + 1 }

def statsAddStuck (s : RunStatsM) (p : String) : RunStatsM :=
  { s with stuckItems := s.stuckItems ++ [p] }

def statsAddCorrupt (s : RunStatsM) (p : String) : RunStatsM :=
  { s with corruptItems := s.corruptItems ++ [p] }

def statsIncScanned (s : RunStatsM) : RunStatsM :=
  { s with totalScanned := s.totalScanned + 1 }

def statsIncBroken (s : RunStatsM) : RunStatsM :=
  { s with brokenSymlinks := s.brokenSymlinks + 1 }

/-- A raised Python exception: `AttributeError: 'NoneType' object has no
attribute '<method>'`. -/
inductive PyErr
  | noneAttr (method : String)
deriving DecidableEq, Repr

inductive FileAction
  /-- `send_single_notification("⚠️ Corrupt File Detected", ...)`. -/
  | corruptNotice (path : String) (st : HealthStatus)
  /-- Appending to `pending_notifications[target]['added']`. -/
  | pendingNotifAdd (target file : String) (title : Option String)
  /-- Optimistic `self.library_files[library_id].add(normpath(path))`. -/
  | cacheAdd (lib : Option String) (path : String)
  /-- `self.trigger_scan(library_id, target_path)` (`force` defaulted). -/
  | triggerCall (lib : Option String) (target : String) (force : Bool)
deriving DecidableEq, Repr

structure ScanFileOut where
  actions : List FileAction
  tracker : TrackerDb
  stats : Option RunStatsM
deriving DecidableEq, Repr

/-- The actions of `scan_file`'s enrollment block (scanner.py lines
874-892): pending-notification entry keyed by `target_path`, optimistic
cache insert (only when the library's set is cached), then `trigger_scan`. -/
def enrollActions (cache : List SectionInfo) (env : FileEnv)
    (libId libTitle : Option String) (p : String) : List FileAction :=
  let parent := dirname p
  let target := if isLibraryRoot cache libId parent then p else parent
  [FileAction.pendingNotifAdd target p libTitle] ++
    (if env.libCacheHasLib then [FileAction.cacheAdd libId (normpath p)] else []) ++
    [FileAction.triggerCall libId target false]

/-- `PlexScanner.scan_file` (scanner.py lines 816-894), with `tracker`
already resolved (the `self.history` fallback always yields a truthy
tracker).  `stats` is `None` on the event path. -/
def scanFile (cfg : Config) (cache : List SectionInfo) (env : FileEnv)
    (tracker : TrackerDb) (stats : Option RunStatsM) (p : String) :
    Except PyErr ScanFileOut :=
  if env.ignored then .ok ⟨[], tracker, stats⟩
  else if cfg.symlinkCheck && env.brokenSymlink then
    .ok ⟨[], tracker, stats.map statsIncBroken⟩
  else
    match env.sizeResult with
    | .error _ => .ok ⟨[], tracker, stats⟩
    | .ok size =>
      if size = 0 then .ok ⟨[], tracker, stats.map (statsAddCorrupt · p)⟩
      else if ¬ (fileExtLower p ∈ cfg.mediaExtensions) then
        .ok ⟨[], tracker, stats⟩
      else
        let stats1 := stats.map statsIncScanned
        if ¬ env.inLibrary then
          if cfg.healthCheck ∧ (checkFileHealth cfg env.healthInput).1 = false then
            .ok ⟨[FileAction.corruptNotice p (checkFileHealth cfg env.healthInput).2],
              tracker, stats1.map (statsAddCorrupt · p)⟩
          else
            let tr := getLibraryIdForPath cache p
            let libId := tr.map (·.1)
            let libTitle := tr.map (·.2.1)
            if pyTruthyStr libTitle || !(decide (cfg.serverType = "plex")) then
              let give := (incrementAttempt tracker p).1
              let tracker1 := (incrementAttempt tracker p).2
              if give then
                match stats1 with
                | none => .error (.noneAttr "add_stuck_item")
                | some s => .ok ⟨[], tracker1, some (statsAddStuck s p)⟩
              else
                match stats1 with
                | none => .error (.noneAttr "add_missing_item")
                | some s =>
                  .ok ⟨enrollActions cache env libId libTitle p, tracker1,
                    some (statsAddMissing s libTitle p)⟩
            else .ok ⟨[], tracker, stats1⟩
        else
          .ok ⟨[], clearEntry tracker p, stats1⟩

/-- Per-file body of `PlexScanner.scan_directory` (scanner.py lines
978-1033): the sweep's subtree walker.  Returns the updated stats and
tracker, and the `(library_id, target_path)` added to `folders_to_scan`
(if any). -/
def sweepWalkFile (cfg : Config) (cache : List SectionInfo) (env : FileEnv)
    (tracker : TrackerDb) (stats : RunStatsM) (p : String) :
    RunStatsM × TrackerDb × Option (String × String) :=
  if (basename p).toList.head? = some '.' then (stats, tracker, none)
  else if ¬ (fileExtLower p ∈ cfg.mediaExtensions) then (stats, tracker, none)
  else if env.ignored then (stats, tracker, none)
  else if cfg.symlinkCheck && env.brokenSymlink then
    (statsIncBroken stats, tracker, none)
  else
    match env.sizeResult with
    | .error _ => (stats, tracker, none)
    | .ok size =>
      if size = 0 then (statsAddCorrupt stats p, tracker, none)
      else
        let stats1 := statsIncScanned stats
        if ¬ env.inLibrary then
          if cfg.healthCheck ∧ (checkFileHealth cfg env.healthInput).1 = false then
            (statsAddCorrupt stats1 p, tracker, none)
          else
            match getLibraryIdForPath cache p with
            | some (lid, ltitle, _) =>
              if ltitle ≠ "" then
                let give := (incrementAttempt tracker p).1
                let tracker1 := (incrementAttempt tracker p).2
                if give then (statsAddStuck stats1 p, tracker1, none)
                else
                  let parent := dirname p
                  let target :=
                    if isLibraryRoot cache (some lid) parent then p else parent
                  (statsAddMissing stats1 (some ltitle) p, tracker1,
                    some (lid, target))
              else (stats1, tracker, none)
            | none => (stats1, tracker, none)
        else (stats1, clearEntry tracker p, none)

/-- Per-file handling of files directly inside a scan root in `run_scan`
(scanner.py lines 1082-1126).  Note: unlike `scan_file` and
`scan_directory`, this branch always targets the parent folder — there is
no `is_library_root` check. -/
def sweepTopFile (cfg : Config) (cache : List SectionInfo) (env : FileEnv)
    (tracker : TrackerDb) (stats : RunStatsM) (p : String) :
    RunStatsM × TrackerDb × Option (String × String) :=
  if (basename p).toList.head? = some '.' then (stats, tracker, none)
  else if env.ignored then (stats, tracker, none)
  else if cfg.symlinkCheck && env.brokenSymlink then
    (statsIncBroken stats, tracker, none)
  else
    match env.sizeResult with
    | .error _ => (stats, tracker, none)
    | .ok size =>
      if size = 0 then (statsAddCorrupt stats p, tracker, none)
      else if ¬ (fileExtLower p ∈ cfg.mediaExtensions) then
        (stats, tracker, none)
      else
        let stats1 := statsIncScanned stats
        if ¬ env.inLibrary then
          if cfg.healthCheck ∧ (checkFileHealth cfg env.healthInput).1 = false then
            (statsAddCorrupt stats1 p, tracker, none)
          else
            match getLibraryIdForPath cache p with
            | some (lid, ltitle, _) =>
              if ltitle ≠ "" then
                let give := (incrementAttempt tracker p).1
                let tracker1 := (incrementAttempt tracker p).2
                if give then (statsAddStuck stats1 p, tracker1, none)
                else
                  (statsAddMissing stats1 (some ltitle) p, tracker1,
                    some (lid, dirname p))
              else (stats1, tracker, none)
            | none => (stats1, tracker, none)
        else (stats1, clearEntry tracker p, none)

/-- In the enrollment block, the trigger call carries the computed library
id, the root-aware target, and `force=False`. -/
theorem mem_enrollActions_trigger {cache : List SectionInfo} {env : FileEnv}
    {libId libTitle : Option String} {p : String}
    {lib : Option String} {target : String} {force : Bool}
    (h : FileAction.triggerCall lib target force ∈
      enrollActions cache env libId libTitle p) :
    lib = libId ∧
    target = (if isLibraryRoot cache libId (dirname p) then p else dirname p) ∧
    force = false := by
  unfold enrollActions at h
  by_cases hc : env.libCacheHasLib <;> simp [hc] at h <;>
    exact ⟨h.1, h.2.1, h.2.2⟩

set_option maxHeartbeats 1000000 in
/-- `scan_file` produces no actions, a single corrupt-file notification, or
the enrollment block for the resolved library. -/
theorem scanFile_actions (cfg : Config) (cache : List SectionInfo)
    (env : FileEnv) (tracker : TrackerDb) (stats : Option RunStatsM)
    (p : String) (out : ScanFileOut)
    (h : scanFile cfg cache env tracker stats p = .ok out) :
    out.actions = [] ∨
    (∃ st, out.actions = [FileAction.corruptNotice p st]) ∨
    out.actions = enrollActions cache env
      ((getLibraryIdForPath cache p).map (·.1))
      ((getLibraryIdForPath cache p).map (·.2.1)) p := by
  simp only [scanFile] at h
  repeat' split at h
  all_goals first
    | (injection h with h; subst h)
    | simp at h
  all_goals first
    | exact Or.inl rfl
    | exact Or.inr (Or.inl ⟨_, rfl⟩)
    | exact Or.inr (Or.inr rfl)

/-- C9 (code bug): on the event path (`submit_file_event` →
`scan_file(path)` with `stats=None`), the give-up branch executes the
unguarded `stats.add_stuck_item(file_path)` and raises `AttributeError`
instead of marking the file stuck and returning normally.  The same input
with a real `RunStats` (as the sweep passes) returns normally and records
the stuck file, showing the intended behaviour. -/
theorem c9_giveup_attribute_error :
    scanFile { mediaExtensions := [".mkv"] } [⟨"1", "Movies", "movie", ["/m"]⟩]
      {} [("/m/a.mkv", 3)] none "/m/a.mkv"
      = .error (.noneAttr "add_stuck_item") ∧
    scanFile { mediaExtensions := [".mkv"] } [⟨"1", "Movies", "movie", ["/m"]⟩]
      {} [("/m/a.mkv", 3)] (some {}) "/m/a.mkv"
      = .ok ⟨[], [("/m/a.mkv", 4)],
          some { stuckItems := ["/m/a.mkv"], totalScanned := 1 }⟩ := by
  exact ⟨by decide, by decide⟩

/-- C5 counterexample: section root `/movies`, file `/movies/solo.mkv`
encountered by the sweep directly inside the scan root (`run_scan`'s
top-level branch).  The parent folder equals the section root, yet the
pending refresh targets `/movies` — the parent — not the file. -/
theorem c5_flat_root_sweep_cex :
    (sweepTopFile { mediaExtensions := [".mkv"] }
        [⟨"1", "Movies", "movie", ["/movies"]⟩] {} [] {} "/movies/solo.mkv").2.2
      = some ("1", "/movies") ∧
    isLibraryRoot [⟨"1", "Movies", "movie", ["/movies"]⟩] (some "1")
      (dirname "/movies/solo.mkv") = true ∧
    ("/movies" : String) ≠ "/movies/solo.mkv" := by
  exact ⟨by decide, by decide, by decide⟩

set_option maxHeartbeats 1000000 in
/-- C5 (amended): the event path (`scan_file`) and the sweep's subtree
walker (`scan_directory`) target the file itself exactly when its parent
folder equals one of the resolved section's roots (after normalization),
and the parent folder otherwise; the sweep's top-level branch in `run_scan`
always targets the parent folder, even when the parent is a section root. -/
theorem c5_refresh_target (cfg : Config) (cache : List SectionInfo)
    (env : FileEnv) (tracker : TrackerDb) (p : String) :
    (∀ stats out, scanFile cfg cache env tracker stats p = .ok out →
      ∀ lib target force,
        FileAction.triggerCall lib target force ∈ out.actions →
          (target = if isLibraryRoot cache lib (dirname p) then p
            else dirname p) ∧ force = false) ∧
    (∀ stats lid target,
      (sweepWalkFile cfg cache env tracker stats p).2.2 = some (lid, target) →
        target = if isLibraryRoot cache (some lid) (dirname p) then p
          else dirname p) ∧
    (∀ stats lid target,
      (sweepTopFile cfg cache env tracker stats p).2.2 = some (lid, target) →
        target = dirname p) := by
  refine ⟨?_, ?_, ?_⟩
  · intro stats out h lib target force hmem
    rcases scanFile_actions cfg cache env tracker stats p out h with
      ha | ⟨st, ha⟩ | ha
    · rw [ha] at hmem
      simp at hmem
    · rw [ha] at hmem
      simp at hmem
    · rw [ha] at hmem
      obtain ⟨hl, ht, hf⟩ := mem_enrollActions_trigger hmem
      subst hl
      exact ⟨ht, hf⟩
  · intro stats lid target h
    simp only [sweepWalkFile] at h
    repeat' split at h
    all_goals simp at h
    all_goals (obtain ⟨h1, h2⟩ := h; subst h1; subst h2; simp_all)
  · intro stats lid target h
    simp only [sweepTopFile] at h
    repeat' split at h
    all_goals simp at h
    all_goals (obtain ⟨h1, h2⟩ := h; subst h1; subst h2; rfl)

theorem c5_refresh_target_witness :
    ("/movies" : String) = dirname "/movies/solo.mkv" :=
  (c5_refresh_target { mediaExtensions := [".mkv"] }
      [⟨"1", "Movies", "movie", ["/movies"]⟩] {} [] "/movies/solo.mkv").2.2
    {} "1" "/movies" (by decide)

theorem c3_sweep_dispatch_witness :
    runScanPostWalk { webhookUrl := some "https://example/hook" } 2
      [("1", "/b"), ("2", "/a")] =
      SweepAction.pendingSummaryCall 2 ::
        (sortByPath [("1", "/b"), ("2", "/a")]).map
          (fun q => SweepAction.enrollScan q.1 q.2 false)
        ++ [SweepAction.saveHistoryCall, SweepAction.finalSummaryCall] ∧
    sortByPath [("1", "/b"), ("2", "/a")] = [("2", "/a"), ("1", "/b")] := by
  refine ⟨(c3_sweep_dispatch _ 2 _ (by decide) (by decide)).1, by decide⟩

/-! ## Notifier (`notifications.send_discord_webhook` and its callers)

`send_discord_webhook` wraps the webhook delivery (one `webhook.send`, or
several when the embed exceeds Discord's 6000-character total) in a
`try/except` whose handler logs `"Failed to send webhook: ..."` and then
**re-raises** (`raise`, notifications.py line 134).  Its callers
`RunStats.send_discord_summary` / `send_discord_pending` wrap the whole
build-and-send in their own `try/except` that logs
`"Failed to send ... notification: ..."` and swallows the exception.
The delivery outcome is an input; results are `(log lines, outcome)`. -/

/-- `send_discord_webhook`'s exception behaviour: success passes through;
a delivery failure is logged and re-raised to the caller. -/
def sendDiscordWebhookRun (delivery : Except String Unit) :
    List String × Except String Unit :=
  match delivery with
  | .ok _ => ([], .ok ())
  | .error e => (["Failed to send webhook: " ++ e], .error e)

/-- `RunStats.send_discord_summary`'s exception behaviour around
`await send_discord_webhook(...)`: any exception is logged and swallowed. -/
def sendDiscordSummaryRun (delivery : Except String Unit) :
    List String × Except String Unit :=
  match sendDiscordWebhookRun delivery with
  | (logs, .ok _) => (logs, .ok ())
  | (logs, .error e) =>
    (logs ++ ["Failed to send Discord notification: " ++ e], .ok ())

/-- C10 counterexample: a failing webhook delivery makes
`send_discord_webhook` itself log **and re-raise** the error to its caller
— it is not the case that the send operation never raises. -/
theorem c10_webhook_reraise_cex :
    sendDiscordWebhookRun (.error "boom")
      = (["Failed to send webhook: boom"], .error "boom") ∧
    ¬ ((sendDiscordWebhookRun (.error "boom")).2 = .ok ()) := by
  exact ⟨rfl, by decide⟩

/-- C10 (amended): every webhook delivery failure is logged;
`send_discord_webhook` re-raises it after logging, and the `RunStats`
notification entry points catch every exception and log it, so no error
propagates out of the notification entry points (best-effort at that
level). -/
theorem c10_notifier_error_contract (delivery : Except String Unit) :
    (∀ e, delivery = .error e →
      sendDiscordWebhookRun delivery
        = (["Failed to send webhook: " ++ e], .error e)) ∧
    (delivery = .ok () → sendDiscordWebhookRun delivery = ([], .ok ())) ∧
    (sendDiscordSummaryRun delivery).2 = .ok () := by
  cases delivery with
  | ok u =>
    cases u
    exact ⟨fun e he => (by cases he), fun _ => rfl, rfl⟩
  | error e =>
    refine ⟨fun e' he' => ?_, fun h => (by cases h), rfl⟩
    have he'' : e = e' := by injection he'
    subst he''
    rfl

theorem c10_notifier_error_contract_witness :
    sendDiscordWebhookRun (.error "http 500")
      = (["Failed to send webhook: http 500"], .error "http 500") ∧
    (sendDiscordSummaryRun (.error "http 500")).2 = .ok () := by
  exact ⟨(c10_notifier_error_contract (.error "http 500")).1 "http 500" rfl,
    (c10_notifier_error_contract (.error "http 500")).2.2⟩

end Omniscan
